import Mathlib

/-!
Verification development for the outreach-tool repository.

The repository consists of a BullMQ worker file (rate limiter, email job
processing, webhook application) and an Express server file (tracking
endpoints and the tracking-token codec).  The definitions below are a
shallow embedding of that code: JavaScript numbers that hold millisecond
timestamps and counters become `Nat`, database/queue effects become
explicit outcome parameters (`Except String _`), and the Node builtins
used by the codec (`JSON.stringify`/`JSON.parse`, `Buffer` base64 and
UTF-8 conversion) are embedded as executable Lean functions implementing
the same algorithms.
-/

/- ### RateLimiter (worker file, `class RateLimiter`)

Source:
```
class RateLimiter {
  constructor(limit) { this.limit = limit; this.sent = 0; this.resetTime = Date.now() + 60000; }
  async canSend() {
    const now = Date.now();
    if (now >= this.resetTime) { this.sent = 0; this.resetTime = now + 60000; }
    if (this.sent >= this.limit) { ...; return false; }
    return true;
  }
  incrementSent() { this.sent++; }
}
```
Times are milliseconds since epoch, modelled as `Nat`. -/

structure RateLimiter where
  limit : Nat
  sent : Nat
  resetTime : Nat
deriving DecidableEq, Repr

/-- `RateLimiter.canSend`: roll the window forward if `now >= resetTime`
(reset `sent` to 0 and `resetTime` to `now + 60000`), then answer whether
`sent < limit`.  Returns the answer together with the (possibly rolled)
state; note that it does **not** increment `sent`. -/
def canSend (now : Nat) (rl : RateLimiter) : Bool × RateLimiter :=
  let rl' := if now ≥ rl.resetTime then { rl with sent := 0, resetTime := now + 60000 } else rl
  if rl'.sent ≥ rl'.limit then (false, rl') else (true, rl')

/-- `RateLimiter.incrementSent`: `this.sent++`. -/
def incrementSent (rl : RateLimiter) : RateLimiter :=
  { rl with sent := rl.sent + 1 }

/-- The gate-then-count sequence actually performed by the worker for a
dispatch that reaches the deliverer: `canSend` followed by
`incrementSent` when the gate answered true.  This is the composite
"acquire" operation of the spec, assembled from the two separate methods
of the source. -/
def tryAcquire (now : Nat) (rl : RateLimiter) : Bool × RateLimiter :=
  match canSend now rl with
  | (true, rl') => (true, incrementSent rl')
  | (false, rl') => (false, rl')

/-- `k` successive composite acquire calls at a fixed clock `now`. -/
def iterAcquire (now : Nat) : Nat → RateLimiter → RateLimiter
  | 0, rl => rl
  | k + 1, rl => (tryAcquire now (iterAcquire now k rl)).2

lemma canSend_no_roll (now : Nat) (rl : RateLimiter) (h : now < rl.resetTime) :
    canSend now rl = (if rl.sent ≥ rl.limit then (false, rl) else (true, rl)) := by
  simp [canSend, Nat.not_le.mpr h]

lemma iterAcquire_fresh (N t : Nat) (k : Nat) :
    iterAcquire t k ⟨N, 0, t + 60000⟩ = ⟨N, min k N, t + 60000⟩ := by
  induction k with
  | zero => simp [iterAcquire]
  | succ k ih =>
      rw [iterAcquire, ih, tryAcquire, canSend_no_roll t _ (by show t < t + 60000; omega)]
      by_cases h : N ≤ min k N
      · have h1 : min k N = N := by omega
        have h2 : min (k + 1) N = N := by omega
        simp [h1, h2, incrementSent]
      · have hk : k < N := by omega
        have h1 : min k N = k := by omega
        have h2 : min (k + 1) N = k + 1 := by omega
        simp [h1, h2, Nat.not_le.mpr hk, incrementSent]

/-- **C1, counterexample.**  The claim says the rate limiter's acquire
operation (`canSend`) itself increments the window count on a true
return, so that with capacity `N = 1`, a fresh window and a fixed clock
the second call returns false.  In the code `canSend` never mutates
`sent` (incrementing is the separate `incrementSent` method), so from the
fresh state `⟨limit 1, sent 0, resetTime 60000⟩` at time 0 both the first
and the second call return true, and the state after the first true
return still has `sent = 0`. -/
theorem C1_canSend_does_not_count :
    (canSend 0 ⟨1, 0, 60000⟩).1 = true ∧
    (canSend 0 ⟨1, 0, 60000⟩).2.sent = 0 ∧
    (canSend 0 (canSend 0 ⟨1, 0, 60000⟩).2).1 = true := by
  decide

/-- **C1, amended.**  `canSend` alone does not count; the counting
acquire is the worker's composite sequence `canSend` then
`incrementSent` on true (`tryAcquire`).  For that composite, starting
from a fresh window `⟨N, 0, t + 60000⟩` at a fixed clock `t`: after `k`
calls, the `(k+1)`-th call returns true and increments the count iff
`k < N`, and once `k ≥ N` it returns false without mutating any limiter
state. -/
theorem C1_amended_exactly_N_acquires (N t k : Nat) :
    (k < N → tryAcquire t (iterAcquire t k ⟨N, 0, t + 60000⟩) =
      (true, ⟨N, k + 1, t + 60000⟩)) ∧
    (N ≤ k → tryAcquire t (iterAcquire t k ⟨N, 0, t + 60000⟩) =
      (false, iterAcquire t k ⟨N, 0, t + 60000⟩)) := by
  rw [iterAcquire_fresh]
  constructor
  · intro hk
    have h1 : min k N = k := by omega
    rw [tryAcquire, canSend_no_roll t _ (by show t < t + 60000; omega)]
    simp [h1, Nat.not_le.mpr hk, incrementSent]
  · intro hk
    have h1 : min k N = N := by omega
    rw [tryAcquire, canSend_no_roll t _ (by show t < t + 60000; omega)]
    simp [h1]

theorem C1_amended_exactly_N_acquires_witness :
    tryAcquire 5 (iterAcquire 5 1 ⟨2, 0, 5 + 60000⟩) = (true, ⟨2, 2, 5 + 60000⟩) ∧
    tryAcquire 5 (iterAcquire 5 2 ⟨2, 0, 5 + 60000⟩) =
      (false, iterAcquire 5 2 ⟨2, 0, 5 + 60000⟩) :=
  ⟨(C1_amended_exactly_N_acquires 2 5 1).1 (by decide),
   (C1_amended_exactly_N_acquires 2 5 2).2 (by decide)⟩

/-- **C7.**  Once a window has fully elapsed (`now ≥ resetTime`), the
next `canSend` call resets the count to exactly 0 and starts the new
window at `now` (stored as `resetTime = now + 60000`) in the same call,
regardless of how many whole windows were skipped, and the call returns
true whenever `limit ≥ 1`; no unused capacity is carried over since the
new count is exactly 0. -/
theorem C7_window_rollover (rl : RateLimiter) (now : Nat)
    (helapsed : now ≥ rl.resetTime) (hcap : 1 ≤ rl.limit) :
    canSend now rl = (true, { limit := rl.limit, sent := 0, resetTime := now + 60000 }) := by
  have hne : rl.limit ≠ 0 := by omega
  simp [canSend, helapsed, Nat.le_zero, hne]

theorem C7_window_rollover_witness :
    canSend 200000 ⟨5, 5, 60000⟩ = (true, { limit := 5, sent := 0, resetTime := 260000 }) :=
  C7_window_rollover ⟨5, 5, 60000⟩ 200000 (by decide) (by decide)

/-- **C8.**  With `limit = 0` every `canSend` call returns false, at any
time and for any prior state: after an eventual rollover the count is 0,
and `0 ≥ 0 = limit` still fails the capacity check. -/
theorem C8_capacity_zero_always_false (rl : RateLimiter) (now : Nat)
    (h : rl.limit = 0) : (canSend now rl).1 = false := by
  by_cases hr : now ≥ rl.resetTime <;> simp [canSend, hr, h]

theorem C8_capacity_zero_always_false_witness :
    (canSend 123456 ⟨0, 0, 60000⟩).1 = false :=
  C8_capacity_zero_always_false ⟨0, 0, 60000⟩ 123456 (by decide)

/- ### EmailDispatchWorker (worker file, `processEmailJob`)

Source control flow:
```
try {
  while (!(await rateLimiter.canSend())) { await sleep(1000); }
  const result = await sendEmail(emailData);
  rateLimiter.incrementSent();
  const sendEvent = await prisma.sendEvent.create({ eventType: result.success ? 'SENT' : 'FAILED', ... });
  if (result.success) {
    await prisma.campaignLead.update(...);
    await prisma.lead.update({ ..., status: 'CONTACTED' });
  }
  return { success: true, sendEventId: sendEvent.id };
} catch (error) {
  try { await prisma.sendEvent.create({ eventType: 'FAILED', errorMessage: error.message, ... }); }
  catch (dbError) { console.error(...); }
  throw error;
}
```
The external deliverer and each store call are modelled as explicit
outcome parameters (`Except String _`: `.error e` means the awaited call
rejected with message `e`).  The rate-limit gate loop is modelled by
taking the limiter state `rl` as it stands once `canSend` has answered
true, so `processEmailJob` here is the body from the `sendEmail` call
on. -/

inductive EventType
  | SENT
  | FAILED
  | DELIVERED
  | BOUNCED
deriving DecidableEq, Repr

structure Job where
  leadId : Int
  campaignLeadId : Int
  campaignStepId : Int
  timestamp : Nat
deriving DecidableEq, Repr

/-- Shape returned by the deliverer (`sendEmail`):
`{ success, messageId, timestamp }`. -/
structure SendResult where
  success : Bool
  messageId : String
  timestamp : Nat
deriving DecidableEq, Repr

/-- A row written by `prisma.sendEvent.create`. -/
structure SendEvent where
  eventType : EventType
  leadId : Int
  campaignLeadId : Int
  campaignStepId : Int
  sentAt : Nat
  errorMessage : Option String
  metaMessageId : Option String
deriving DecidableEq, Repr

/-- Everything observable about one `processEmailJob` run: the value
returned or error thrown (`result`), the `sendEvent` rows created in
order, whether the lead was marked CONTACTED, whether the campaignLead
row was touched, and the limiter state afterwards. -/
structure JobOutcome where
  result : Except String Nat
  events : List SendEvent
  leadContacted : Bool
  campaignLeadTouched : Bool
  limiter : RateLimiter
deriving Repr

/-- The row created on the happy path (line 95 of the worker):
`eventType: result.success ? 'SENT' : 'FAILED'`, `sentAt: result.timestamp`,
`errorMessage: result.success ? null : 'Unknown error'`, metadata carrying
the provider message id. -/
def primaryEvent (job : Job) (res : SendResult) : SendEvent :=
  { eventType := if res.success then .SENT else .FAILED
    leadId := job.leadId
    campaignLeadId := job.campaignLeadId
    campaignStepId := job.campaignStepId
    sentAt := res.timestamp
    errorMessage := if res.success then none else some "Unknown error"
    metaMessageId := some res.messageId }

/-- The row created by the catch block (line 139): `eventType: 'FAILED'`,
`sentAt: new Date()`, `errorMessage: error.message`. -/
def failedEvent (job : Job) (now : Nat) (e : String) : SendEvent :=
  { eventType := .FAILED
    leadId := job.leadId
    campaignLeadId := job.campaignLeadId
    campaignStepId := job.campaignStepId
    sentAt := now
    errorMessage := some e
    metaMessageId := none }

/-- The catch block: best-effort creation of a FAILED row (its own
failure is swallowed), then `throw error` re-raising the original
error `e`. -/
def catchPath (e : String) (evs : List SendEvent) (contacted clTouched : Bool)
    (rl : RateLimiter) (job : Job) (now : Nat)
    (createFailedEvent : Except String Unit) : JobOutcome :=
  match createFailedEvent with
  | .ok _ =>
      { result := .error e, events := evs ++ [failedEvent job now e],
        leadContacted := contacted, campaignLeadTouched := clTouched, limiter := rl }
  | .error _ =>
      { result := .error e, events := evs,
        leadContacted := contacted, campaignLeadTouched := clTouched, limiter := rl }

/-- `processEmailJob` from the `sendEmail` call on, with every awaited
external call replaced by its outcome: `deliver` is the deliverer call,
`createEvent` the primary `sendEvent.create` (returning the new row id),
`updateCampaignLead`/`updateLead` the two success-path updates, and
`createFailedEvent` the catch-block `sendEvent.create`.  `rl` is the
limiter state once the gate loop has exited and `now` the clock used for
`new Date()` in the catch block. -/
def processEmailJob (deliver : Except String SendResult)
    (createEvent : Except String Nat)
    (updateCampaignLead updateLead createFailedEvent : Except String Unit)
    (rl : RateLimiter) (now : Nat) (job : Job) : JobOutcome :=
  match deliver with
  | .error e => catchPath e [] false false rl job now createFailedEvent
  | .ok res =>
    let rl' := incrementSent rl
    match createEvent with
    | .error e => catchPath e [] false false rl' job now createFailedEvent
    | .ok evId =>
      let ev := primaryEvent job res
      if res.success then
        match updateCampaignLead with
        | .error e => catchPath e [ev] false false rl' job now createFailedEvent
        | .ok _ =>
          match updateLead with
          | .error e => catchPath e [ev] false true rl' job now createFailedEvent
          | .ok _ =>
              { result := .ok evId, events := [ev],
                leadContacted := true, campaignLeadTouched := true, limiter := rl' }
      else
        { result := .ok evId, events := [ev],
          leadContacted := false, campaignLeadTouched := false, limiter := rl' }

/-- **C4.**  If the deliverer rejects with `e`, the worker persists a
SendRecord with `eventType = FAILED` and `errorMessage = some e`, and the
run rethrows exactly the original delivery error `e`; if that FAILED-row
persistence itself fails, it is swallowed (no row created) and still the
original delivery error — never the persistence error — is what
propagates. -/
theorem C4_deliverer_failure_path
    (e : String) (createEvent : Except String Nat)
    (updateCampaignLead updateLead createFailedEvent : Except String Unit)
    (rl : RateLimiter) (now : Nat) (job : Job) :
    (processEmailJob (.error e) createEvent updateCampaignLead updateLead
        createFailedEvent rl now job).result = .error e ∧
    (createFailedEvent = .ok () →
      (processEmailJob (.error e) createEvent updateCampaignLead updateLead
          createFailedEvent rl now job).events = [failedEvent job now e] ∧
      (failedEvent job now e).eventType = .FAILED ∧
      (failedEvent job now e).errorMessage = some e) ∧
    (∀ e2, createFailedEvent = .error e2 →
      (processEmailJob (.error e) createEvent updateCampaignLead updateLead
          createFailedEvent rl now job).events = []) := by
  refine ⟨?_, ?_, ?_⟩
  · cases createFailedEvent <;> simp [processEmailJob, catchPath]
  · intro h; subst h; simp [processEmailJob, catchPath, failedEvent]
  · intro e2 h; subst h; simp [processEmailJob, catchPath]

theorem C4_deliverer_failure_path_witness :
    (processEmailJob (.error "smtp down") (.ok 1) (.ok ()) (.ok ()) (.ok ())
        ⟨80, 3, 60000⟩ 500 ⟨1, 2, 3, 100⟩).result = .error "smtp down" ∧
    (processEmailJob (.error "smtp down") (.ok 1) (.ok ()) (.ok ()) (.ok ())
        ⟨80, 3, 60000⟩ 500 ⟨1, 2, 3, 100⟩).events =
      [failedEvent ⟨1, 2, 3, 100⟩ 500 "smtp down"] := by
  have h := C4_deliverer_failure_path "smtp down" (.ok 1) (.ok ()) (.ok ()) (.ok ())
    ⟨80, 3, 60000⟩ 500 ⟨1, 2, 3, 100⟩
  exact ⟨h.1, (h.2.1 rfl).1⟩

/-- **C5, counterexample.**  The claim says a failure of the
mark-lead-contacted side effect is best-effort: logged and **not
propagated** to the caller.  In the code the `lead.update` call sits
inside the outer `try`, so its failure falls into the generic catch
block: a concrete run in which delivery and the primary record succeed
but `lead.update` rejects with "db down" ends with the job **throwing**
"db down" (and even appending a spurious FAILED row), not returning
success. -/
theorem C5_lead_update_failure_propagates :
    (processEmailJob (.ok ⟨true, "m1", 400⟩) (.ok 7) (.ok ()) (.error "db down")
        (.ok ()) ⟨80, 3, 60000⟩ 500 ⟨1, 2, 3, 100⟩).result = .error "db down" ∧
    (processEmailJob (.ok ⟨true, "m1", 400⟩) (.ok 7) (.ok ()) (.error "db down")
        (.ok ()) ⟨80, 3, 60000⟩ 500 ⟨1, 2, 3, 100⟩).leadContacted = false := by
  constructor <;> rfl

/-- **C5, amended.**  The mark-lead-contacted side effect runs only when
the deliverer reports success (never when it raises, and never when it
returns `success = false`), and a failure of that side effect does not
roll back the already-created SENT record; but the failure is **not**
best-effort: it is caught by the generic failure path, which appends an
additional FAILED record and re-raises the error to the caller. -/
theorem C5_amended_contacted_only_on_success
    (deliver : Except String SendResult) (createEvent : Except String Nat)
    (updateCampaignLead updateLead createFailedEvent : Except String Unit)
    (rl : RateLimiter) (now : Nat) (job : Job) :
    (∀ e, deliver = .error e →
      (processEmailJob deliver createEvent updateCampaignLead updateLead
          createFailedEvent rl now job).leadContacted = false) ∧
    (∀ res, deliver = .ok res → res.success = false →
      (processEmailJob deliver createEvent updateCampaignLead updateLead
          createFailedEvent rl now job).leadContacted = false) ∧
    (∀ res evId e, deliver = .ok res → res.success = true →
      createEvent = .ok evId → updateCampaignLead = .ok () →
      updateLead = .error e → createFailedEvent = .ok () →
      (processEmailJob deliver createEvent updateCampaignLead updateLead
          createFailedEvent rl now job).events =
        [primaryEvent job res, failedEvent job now e] ∧
      (processEmailJob deliver createEvent updateCampaignLead updateLead
          createFailedEvent rl now job).result = .error e) := by
  refine ⟨?_, ?_, ?_⟩
  · intro e h; subst h
    cases createFailedEvent <;> simp [processEmailJob, catchPath]
  · intro res h hs; subst h
    cases createEvent with
    | error e => cases createFailedEvent <;> simp [processEmailJob, catchPath]
    | ok evId => simp [processEmailJob, hs]
  · intro res evId e h hs hc hcl hl hf
    subst h; subst hc; subst hcl; subst hl; subst hf
    simp [processEmailJob, hs, catchPath]

theorem C5_amended_contacted_only_on_success_witness :
    (processEmailJob (.error "boom") (.ok 7) (.ok ()) (.ok ()) (.ok ())
        ⟨80, 3, 60000⟩ 500 ⟨1, 2, 3, 100⟩).leadContacted = false ∧
    (processEmailJob (.ok ⟨true, "m1", 400⟩) (.ok 7) (.ok ()) (.error "db down")
        (.ok ()) ⟨80, 3, 60000⟩ 500 ⟨1, 2, 3, 100⟩).events =
      [primaryEvent ⟨1, 2, 3, 100⟩ ⟨true, "m1", 400⟩,
       failedEvent ⟨1, 2, 3, 100⟩ 500 "db down"] := by
  refine ⟨(C5_amended_contacted_only_on_success (.error "boom") (.ok 7) (.ok ())
    (.ok ()) (.ok ()) ⟨80, 3, 60000⟩ 500 ⟨1, 2, 3, 100⟩).1 "boom" rfl, ?_⟩
  exact ((C5_amended_contacted_only_on_success (.ok ⟨true, "m1", 400⟩) (.ok 7)
    (.ok ()) (.error "db down") (.ok ()) ⟨80, 3, 60000⟩ 500 ⟨1, 2, 3, 100⟩).2.2
    ⟨true, "m1", 400⟩ 7 "db down" rfl rfl rfl rfl rfl rfl).1

/-- **C10.**  The limiter counter is incremented only after the deliverer
call returns: when the deliverer rejects, the run leaves the limiter
exactly as it was when the gate passed (failed delivery attempts consume
no budget), and when the deliverer returns, the counter is incremented
exactly once no matter what happens afterwards. -/
theorem C10_increment_only_after_delivery
    (deliver : Except String SendResult) (createEvent : Except String Nat)
    (updateCampaignLead updateLead createFailedEvent : Except String Unit)
    (rl : RateLimiter) (now : Nat) (job : Job) :
    (∀ e, deliver = .error e →
      (processEmailJob deliver createEvent updateCampaignLead updateLead
          createFailedEvent rl now job).limiter = rl) ∧
    (∀ res, deliver = .ok res →
      (processEmailJob deliver createEvent updateCampaignLead updateLead
          createFailedEvent rl now job).limiter = incrementSent rl) := by
  constructor
  · intro e h; subst h
    cases createFailedEvent <;> simp [processEmailJob, catchPath]
  · intro res h; subst h
    cases createEvent with
    | error e => cases createFailedEvent <;> simp [processEmailJob, catchPath]
    | ok evId =>
      by_cases hs : res.success
      · cases updateCampaignLead with
        | error e => cases createFailedEvent <;> simp [processEmailJob, hs, catchPath]
        | ok u =>
          cases updateLead with
          | error e => cases createFailedEvent <;> simp [processEmailJob, hs, catchPath]
          | ok u2 => simp [processEmailJob, hs]
      · simp [processEmailJob, hs]

theorem C10_increment_only_after_delivery_witness :
    (processEmailJob (.error "boom") (.ok 7) (.ok ()) (.ok ()) (.ok ())
        ⟨80, 3, 60000⟩ 500 ⟨1, 2, 3, 100⟩).limiter = ⟨80, 3, 60000⟩ ∧
    (processEmailJob (.ok ⟨true, "m1", 400⟩) (.ok 7) (.ok ()) (.ok ()) (.ok ())
        ⟨80, 3, 60000⟩ 500 ⟨1, 2, 3, 100⟩).limiter = incrementSent ⟨80, 3, 60000⟩ := by
  exact ⟨(C10_increment_only_after_delivery (.error "boom") (.ok 7) (.ok ()) (.ok ())
      (.ok ()) ⟨80, 3, 60000⟩ 500 ⟨1, 2, 3, 100⟩).1 "boom" rfl,
    (C10_increment_only_after_delivery (.ok ⟨true, "m1", 400⟩) (.ok 7) (.ok ()) (.ok ())
      (.ok ()) ⟨80, 3, 60000⟩ 500 ⟨1, 2, 3, 100⟩).2 ⟨true, "m1", 400⟩ rfl⟩

/- ### WebhookApplier (worker file, `processWebhookJob`)

Source: a switch on `type` over `email_delivered` / `email_opened` /
`email_clicked` / `email_bounced`; each arm runs
`prisma.sendEvent.updateMany` matching rows whose `metadata.messageId`
equals `data.messageId` and patching lifecycle fields; unknown types are
logged and ignored.  The store is modelled as the list of sendEvent rows
(here with the lifecycle timestamp columns included). -/

structure SendRecord where
  eventType : EventType
  leadId : Int
  campaignLeadId : Int
  campaignStepId : Int
  metaMessageId : Option String
  deliveredAt : Option Nat
  openedAt : Option Nat
  clickedAt : Option Nat
  bouncedAt : Option Nat
  errorMessage : Option String
deriving DecidableEq, Repr

/-- Apply a patch to every row whose `metadata.messageId` equals the
webhook's message id (the `updateMany` matching rule). -/
def updateManyByMessageId (messageId : String) (patch : SendRecord → SendRecord)
    (store : List SendRecord) : List SendRecord :=
  store.map fun r => if r.metaMessageId = some messageId then patch r else r

/-- `processWebhookJob`: dispatch on the webhook `type` string; `data`
carries `messageId`, `timestamp` (already converted to a millisecond
instant by `new Date(data.timestamp)`) and, for bounces, `reason`. -/
def processWebhookJob (ty : String) (messageId : String) (timestamp : Nat)
    (reason : String) (store : List SendRecord) : List SendRecord :=
  if ty = "email_delivered" then
    updateManyByMessageId messageId
      (fun r => { r with eventType := .DELIVERED, deliveredAt := some timestamp }) store
  else if ty = "email_opened" then
    updateManyByMessageId messageId
      (fun r => { r with openedAt := some timestamp }) store
  else if ty = "email_clicked" then
    updateManyByMessageId messageId
      (fun r => { r with clickedAt := some timestamp }) store
  else if ty = "email_bounced" then
    updateManyByMessageId messageId
      (fun r => { r with eventType := .BOUNCED, bouncedAt := some timestamp,
                         errorMessage := some reason }) store
  else
    store

lemma updateManyByMessageId_idem (messageId : String)
    (patch : SendRecord → SendRecord)
    (hmeta : ∀ r, (patch r).metaMessageId = r.metaMessageId)
    (hidem : ∀ r, patch (patch r) = patch r) (store : List SendRecord) :
    updateManyByMessageId messageId patch (updateManyByMessageId messageId patch store) =
      updateManyByMessageId messageId patch store := by
  unfold updateManyByMessageId
  rw [List.map_map]
  apply List.map_congr_left
  intro r _
  by_cases h : r.metaMessageId = some messageId
  · simp [h, hmeta, hidem]
  · simp [h]

/-- **C6.**  Applying the same webhook event (same type, message id,
timestamp and reason) twice to a store of SendRecords yields exactly the
same store as applying it once — for the four lifecycle types because
each patch neither changes the matching key nor produces different
values on re-application, and trivially for unknown types, which are
ignored. -/
theorem C6_webhook_idempotent (ty messageId : String) (timestamp : Nat)
    (reason : String) (store : List SendRecord) :
    processWebhookJob ty messageId timestamp reason
        (processWebhookJob ty messageId timestamp reason store) =
      processWebhookJob ty messageId timestamp reason store := by
  unfold processWebhookJob
  split
  · apply updateManyByMessageId_idem <;> exact fun r => rfl
  · split
    · apply updateManyByMessageId_idem <;> exact fun r => rfl
    · split
      · apply updateManyByMessageId_idem <;> exact fun r => rfl
      · split
        · apply updateManyByMessageId_idem <;> exact fun r => rfl
        · rfl

/- ### TrackingToken codec (server file)

Source: `encode` is `Buffer.from(JSON.stringify(trackingData)).toString('base64')`
built by `/api/generate-tracking-urls` (which inserts `originalUrl` only
when truthy: `if (originalUrl) trackingData.originalUrl = originalUrl`),
and `decode` is `JSON.parse(Buffer.from(id, 'base64').toString('utf-8'))`
in the `/r/:id` and `/o.png` handlers.  The Node builtins are embedded
below as executable Lean functions implementing the same algorithms:
`JSON.stringify` escaping and decimal number printing, a `JSON.parse`
grammar (numbers written with a fraction or exponent are recognised but
carried opaquely as `JValue.jfloat`, since their values are IEEE floats),
Node's lenient base64 decoding (non-alphabet characters ignored,
base64url accepted) and WHATWG-style lenient UTF-8 decoding (invalid
sequences become U+FFFD rather than an error, as in
`Buffer.prototype.toString`). -/

def isDigitChar (c : Char) : Bool := decide (48 ≤ c.toNat ∧ c.toNat ≤ 57)

def digitChar (d : Nat) : Char := Char.ofNat (48 + d)

/-- Decimal digits, most significant first; the fuel strictly exceeds
`n`, which always suffices since the argument shrinks by a factor of ten
per step. -/
def natToDigitsAux : Nat → Nat → List Char
  | 0, _ => []
  | fuel + 1, n =>
    if n < 10 then [digitChar n] else natToDigitsAux fuel (n / 10) ++ [digitChar (n % 10)]

/-- Decimal digits of `n`, most significant first (`Number.prototype.toString`
on a nonnegative integer). -/
def natToDigits (n : Nat) : List Char := natToDigitsAux (n + 1) n

/-- `JSON.stringify` of an integer (JavaScript prints integral numbers in
plain decimal). -/
def intToChars (i : Int) : List Char :=
  if i < 0 then '-' :: natToDigits i.natAbs else natToDigits i.natAbs

def hexDigitChar (d : Nat) : Char :=
  if d < 10 then Char.ofNat (48 + d) else Char.ofNat (87 + d)

def hexVal (c : Char) : Option Nat :=
  if 48 ≤ c.toNat ∧ c.toNat ≤ 57 then some (c.toNat - 48)
  else if 97 ≤ c.toNat ∧ c.toNat ≤ 102 then some (c.toNat - 87)
  else if 65 ≤ c.toNat ∧ c.toNat ≤ 70 then some (c.toNat - 55)
  else none

/-- The `JSON.stringify` string-escaping table: `"` and `\` get a
backslash, the named control escapes use their short forms, the
remaining control characters become `\u00XX` (lowercase hex), everything
else is emitted unchanged. -/
def jsonEscapeChar (c : Char) : List Char :=
  if c = '"' then ['\\', '"']
  else if c = '\\' then ['\\', '\\']
  else if c.toNat = 8 then ['\\', 'b']
  else if c.toNat = 9 then ['\\', 't']
  else if c.toNat = 10 then ['\\', 'n']
  else if c.toNat = 12 then ['\\', 'f']
  else if c.toNat = 13 then ['\\', 'r']
  else if c.toNat < 32 then
    ['\\', 'u', '0', '0', hexDigitChar (c.toNat / 16), hexDigitChar (c.toNat % 16)]
  else [c]

def jsonEscape : List Char → List Char
  | [] => []
  | c :: cs => jsonEscapeChar c ++ jsonEscape cs

/-- JSON values as produced by `JSON.parse`.  Numbers written in plain
integer syntax are carried exactly (`jnum`); numbers written with a
fraction or exponent part are IEEE doubles in JavaScript and are carried
opaquely (`jfloat`) — no claim in this development depends on their
values. -/
inductive JValue
  | jnull
  | jbool (b : Bool)
  | jnum (n : Int)
  | jfloat
  | jstr (s : String)
  | jarr (elems : List JValue)
  | jobj (fields : List (String × JValue))
deriving Repr

def unescapeChar (e : Char) : Option Char :=
  if e = '"' then some '"'
  else if e = '\\' then some '\\'
  else if e = '/' then some '/'
  else if e = 'b' then some (Char.ofNat 8)
  else if e = 'f' then some (Char.ofNat 12)
  else if e = 'n' then some (Char.ofNat 10)
  else if e = 'r' then some (Char.ofNat 13)
  else if e = 't' then some (Char.ofNat 9)
  else none

/-- Body of a JSON string literal (after the opening quote): collect
characters up to the closing quote, handling the escape forms and
rejecting raw control characters, as `JSON.parse` does.  Driven by fuel;
each step consumes at least one input character, so fuel exceeding the
input length is always enough. -/
def parseStrAux : Nat → List Char → Option (List Char × List Char)
  | 0, _ => none
  | _, [] => none
  | fuel + 1, c :: cs =>
    if c = '"' then some ([], cs)
    else if c = '\\' then
      match cs with
      | [] => none
      | e :: cs' =>
        if e = 'u' then
          match cs' with
          | h1 :: h2 :: h3 :: h4 :: cs'' =>
            match hexVal h1, hexVal h2, hexVal h3, hexVal h4 with
            | some a, some b, some c2, some d =>
              match parseStrAux fuel cs'' with
              | some (s, r) => some (Char.ofNat (a * 4096 + b * 256 + c2 * 16 + d) :: s, r)
              | none => none
            | _, _, _, _ => none
          | _ => none
        else
          match unescapeChar e with
          | some u =>
            match parseStrAux fuel cs' with
            | some (s, r) => some (u :: s, r)
            | none => none
          | none => none
    else if c.toNat < 32 then none
    else
      match parseStrAux fuel cs with
      | some (s, r) => some (c :: s, r)
      | none => none

/-- Consume a run of decimal digits, folding them onto `acc`. -/
def parseDigitsAux : List Char → Nat → Nat × List Char
  | [], acc => (acc, [])
  | c :: cs, acc =>
    if isDigitChar c then parseDigitsAux cs (acc * 10 + (c.toNat - 48)) else (acc, c :: cs)

/-- The JSON integer part: `0` or a nonzero digit followed by more
digits (so `01` is not swallowed as `1`, matching the JSON grammar). -/
def parseIntPart : List Char → Option (Nat × List Char)
  | [] => none
  | c :: cs =>
    if c = '0' then some (0, cs)
    else if isDigitChar c then some (parseDigitsAux cs (c.toNat - 48))
    else none

/-- After `e`/`E`: optional sign, then at least one digit. -/
def parseExpPart (cs : List Char) : Option (List Char) :=
  let cs1 := match cs with
    | c :: t => if c = '+' ∨ c = '-' then t else c :: t
    | [] => []
  match cs1 with
  | c :: t => if isDigitChar c then some (parseDigitsAux t (c.toNat - 48)).2 else none
  | [] => none

/-- After the `.`: at least one digit. -/
def parseFrac (cs : List Char) : Option (List Char) :=
  match cs with
  | c :: t => if isDigitChar c then some (parseDigitsAux t (c.toNat - 48)).2 else none
  | [] => none

def parseAfterFrac : List Char → Option (JValue × List Char)
  | [] => some (.jfloat, [])
  | c :: t =>
    if c = 'e' ∨ c = 'E' then (parseExpPart t).map (fun r => (.jfloat, r))
    else some (.jfloat, c :: t)

def parseNumberTail (neg : Bool) (n : Nat) : List Char → Option (JValue × List Char)
  | [] => some (.jnum (if neg then -(n : Int) else (n : Int)), [])
  | c :: t =>
    if c = '.' then
      match parseFrac t with
      | some cs3 => parseAfterFrac cs3
      | none => none
    else if c = 'e' ∨ c = 'E' then (parseExpPart t).map (fun r => (.jfloat, r))
    else some (.jnum (if neg then -(n : Int) else (n : Int)), c :: t)

/-- A JSON number: optional leading minus, integer part, optional
fraction and exponent; plain-integer syntax yields `jnum`, anything with
a fraction or exponent yields `jfloat`. -/
def parseNumber : List Char → Option (JValue × List Char)
  | [] => none
  | c :: t =>
    if c = '-' then
      match parseIntPart t with
      | some (n, cs2) => parseNumberTail true n cs2
      | none => none
    else
      match parseIntPart (c :: t) with
      | some (n, cs2) => parseNumberTail false n cs2
      | none => none

def isWsChar (c : Char) : Bool :=
  decide (c.toNat = 32 ∨ c.toNat = 9 ∨ c.toNat = 10 ∨ c.toNat = 13)

def skipWs : List Char → List Char
  | [] => []
  | c :: cs => if isWsChar c then skipWs cs else c :: cs

mutual

/-- One JSON value, in the `JSON.parse` grammar.  `fuel` bounds the
recursion depth through objects and arrays; it is decremented on every
nested call, so fuel exceeding the input length is always enough. -/
def parseV : Nat → List Char → Option (JValue × List Char)
  | 0, _ => none
  | fuel + 1, cs =>
    match skipWs cs with
    | [] => none
    | c :: t =>
      if c = '\x7b' then
        match skipWs t with
        | '\x7d' :: r => some (.jobj [], r)
        | _ =>
          match parseObjFields fuel t with
          | some (fs, r) => some (.jobj fs, r)
          | none => none
      else if c = '[' then
        match skipWs t with
        | ']' :: r => some (.jarr [], r)
        | _ =>
          match parseArrElems fuel t with
          | some (vs, r) => some (.jarr vs, r)
          | none => none
      else if c = '"' then
        match parseStrAux (t.length + 1) t with
        | some (s, r) => some (.jstr (String.mk s), r)
        | none => none
      else if c = 't' then
        match t with
        | 'r' :: 'u' :: 'e' :: r => some (.jbool true, r)
        | _ => none
      else if c = 'f' then
        match t with
        | 'a' :: 'l' :: 's' :: 'e' :: r => some (.jbool false, r)
        | _ => none
      else if c = 'n' then
        match t with
        | 'u' :: 'l' :: 'l' :: r => some (.jnull, r)
        | _ => none
      else if c = '-' ∨ isDigitChar c then parseNumber (c :: t)
      else none

/-- The fields of a nonempty JSON object, starting after the `{`. -/
def parseObjFields : Nat → List Char → Option (List (String × JValue) × List Char)
  | 0, _ => none
  | fuel + 1, cs =>
    match skipWs cs with
    | [] => none
    | c :: t =>
      if c = '"' then
        match parseStrAux (t.length + 1) t with
        | some (key, r1) =>
          match skipWs r1 with
          | [] => none
          | c2 :: t2 =>
            if c2 = ':' then
              match parseV fuel t2 with
              | some (v, r2) =>
                match skipWs r2 with
                | [] => none
                | c3 :: t3 =>
                  if c3 = ',' then
                    match parseObjFields fuel t3 with
                    | some (fs, r3) => some ((String.mk key, v) :: fs, r3)
                    | none => none
                  else if c3 = '\x7d' then some ([(String.mk key, v)], t3)
                  else none
              | none => none
            else none
        | none => none
      else none

/-- The elements of a nonempty JSON array, starting after the `[`. -/
def parseArrElems : Nat → List Char → Option (List JValue × List Char)
  | 0, _ => none
  | fuel + 1, cs =>
    match parseV fuel cs with
    | some (v, r) =>
      match skipWs r with
      | [] => none
      | c :: t =>
        if c = ',' then
          match parseArrElems fuel t with
          | some (vs, r2) => some (v :: vs, r2)
          | none => none
        else if c = ']' then some ([v], t)
        else none
    | none => none

end

/-- `JSON.parse`: one value, then only trailing whitespace. -/
def jsonParseList (cs : List Char) : Option JValue :=
  match parseV (cs.length + 1) cs with
  | some (v, r) =>
    match skipWs r with
    | [] => some v
    | _ :: _ => none
  | none => none

/-- UTF-8 encoding of one scalar value (`Buffer.from(string)`). -/
def utf8EncodeChar (c : Char) : List Nat :=
  if c.toNat < 128 then [c.toNat]
  else if c.toNat < 2048 then [192 + c.toNat / 64, 128 + c.toNat % 64]
  else if c.toNat < 65536 then
    [224 + c.toNat / 4096, 128 + c.toNat / 64 % 64, 128 + c.toNat % 64]
  else
    [240 + c.toNat / 262144, 128 + c.toNat / 4096 % 64, 128 + c.toNat / 64 % 64,
     128 + c.toNat % 64]

def utf8EncodeList : List Char → List Nat
  | [] => []
  | c :: cs => utf8EncodeChar c ++ utf8EncodeList cs

/-- One step of WHATWG-style lenient UTF-8 decoding, as performed by
`buffer.toString('utf-8')`: decode a well-formed sequence, otherwise
emit U+FFFD, consume the offending lead byte and resume.  The second-byte
range checks reject overlong, surrogate and out-of-range sequences, so a
decoded scalar value is always valid. -/
def utf8DecodeStep : List Nat → Char × List Nat
  | [] => (Char.ofNat 65533, [])
  | b0 :: rest =>
    if b0 < 128 then (Char.ofNat b0, rest)
    else if b0 < 194 then (Char.ofNat 65533, rest)
    else if b0 < 224 then
      match rest with
      | b1 :: r2 =>
        if 128 ≤ b1 ∧ b1 < 192 then (Char.ofNat ((b0 - 192) * 64 + (b1 - 128)), r2)
        else (Char.ofNat 65533, rest)
      | [] => (Char.ofNat 65533, [])
    else if b0 < 240 then
      match rest with
      | b1 :: b2 :: r2 =>
        if (128 ≤ b1 ∧ b1 < 192) ∧ (128 ≤ b2 ∧ b2 < 192) ∧
           ¬(b0 = 224 ∧ b1 < 160) ∧ ¬(b0 = 237 ∧ 160 ≤ b1) then
          (Char.ofNat ((b0 - 224) * 4096 + (b1 - 128) * 64 + (b2 - 128)), r2)
        else (Char.ofNat 65533, rest)
      | _ => (Char.ofNat 65533, rest)
    else if b0 < 245 then
      match rest with
      | b1 :: b2 :: b3 :: r2 =>
        if (128 ≤ b1 ∧ b1 < 192) ∧ (128 ≤ b2 ∧ b2 < 192) ∧ (128 ≤ b3 ∧ b3 < 192) ∧
           ¬(b0 = 240 ∧ b1 < 144) ∧ ¬(b0 = 244 ∧ 144 ≤ b1) then
          (Char.ofNat ((b0 - 240) * 262144 + (b1 - 128) * 4096 + (b2 - 128) * 64 + (b3 - 128)), r2)
        else (Char.ofNat 65533, rest)
      | _ => (Char.ofNat 65533, rest)
    else (Char.ofNat 65533, rest)

def utf8DecodeAux : Nat → List Nat → List Char
  | _, [] => []
  | 0, _ :: _ => []
  | fuel + 1, b :: bs =>
    let (c, rest) := utf8DecodeStep (b :: bs)
    c :: utf8DecodeAux fuel rest

/-- Lenient UTF-8 decoding of a byte list (`buffer.toString('utf-8')`).
Each step consumes at least one byte, so fuel equal to the length is
always enough. -/
def utf8DecodeLenient (bs : List Nat) : List Char := utf8DecodeAux bs.length bs

/-- The base64 alphabet (`A`–`Z`, `a`–`z`, `0`–`9`, `+`, `/`). -/
def sixToChar (s : Nat) : Char :=
  if s < 26 then Char.ofNat (65 + s)
  else if s < 52 then Char.ofNat (97 + (s - 26))
  else if s < 62 then Char.ofNat (48 + (s - 52))
  else if s = 62 then '+' else '/'

/-- Alphabet positions accepted by Node's base64 decoder: the standard
alphabet plus the base64url variants `-` and `_`; everything else
(including `=` padding and whitespace) is skipped. -/
def charToSix (c : Char) : Option Nat :=
  if 65 ≤ c.toNat ∧ c.toNat ≤ 90 then some (c.toNat - 65)
  else if 97 ≤ c.toNat ∧ c.toNat ≤ 122 then some (c.toNat - 97 + 26)
  else if 48 ≤ c.toNat ∧ c.toNat ≤ 57 then some (c.toNat - 48 + 52)
  else if c = '+' ∨ c = '-' then some 62
  else if c = '/' ∨ c = '_' then some 63
  else none

/-- Standard padded base64 of a byte list
(`Buffer.prototype.toString('base64')`). -/
def base64EncodeList : List Nat → List Char
  | [] => []
  | [b0] => [sixToChar (b0 / 4), sixToChar (b0 % 4 * 16), '=', '=']
  | [b0, b1] => [sixToChar (b0 / 4), sixToChar (b0 % 4 * 16 + b1 / 16), sixToChar (b1 % 16 * 4), '=']
  | b0 :: b1 :: b2 :: bs =>
      sixToChar (b0 / 4) :: sixToChar (b0 % 4 * 16 + b1 / 16) ::
      sixToChar (b1 % 16 * 4 + b2 / 64) :: sixToChar (b2 % 64) :: base64EncodeList bs

/-- Reassemble bytes from a run of six-bit groups: full groups of four
give three bytes; a trailing group of two or three gives one or two
bytes; a lone trailing group carries no complete byte and is dropped
(Node's lenient behaviour). -/
def sixGroupsToBytes : List Nat → List Nat
  | s0 :: s1 :: s2 :: s3 :: rest =>
      (s0 * 4 + s1 / 16) :: (s1 % 16 * 16 + s2 / 4) :: (s2 % 4 * 64 + s3) :: sixGroupsToBytes rest
  | [s0, s1] => [s0 * 4 + s1 / 16]
  | [s0, s1, s2] => [s0 * 4 + s1 / 16, s1 % 16 * 16 + s2 / 4]
  | _ => []

/-- Node's lenient base64 decoding (`Buffer.from(str, 'base64')`):
ignore everything outside the (url-safe-extended) alphabet, then decode
six-bit groups. -/
def base64DecodeChars (cs : List Char) : List Nat :=
  sixGroupsToBytes (cs.filterMap charToSix)

/-- The tracking payload: integer ids and an optional `originalUrl`
string. -/
structure Payload where
  leadId : Int
  campaignLeadId : Int
  campaignStepId : Int
  originalUrl : Option String
deriving DecidableEq, Repr

/-- `JSON.stringify` of a string: quote, escaped body, quote. -/
def serializeStrChars (s : String) : List Char :=
  '"' :: (jsonEscape s.data ++ ['"'])

/-- `JSON.stringify(trackingData)` as built by
`/api/generate-tracking-urls`: keys in insertion order, and
`originalUrl` included only when truthy (`if (originalUrl) ...`), so a
present-but-empty url is dropped. -/
def payloadJsonChars (p : Payload) : List Char :=
  '\x7b' :: (serializeStrChars "leadId" ++ ':' :: intToChars p.leadId ++
  ',' :: serializeStrChars "campaignLeadId" ++ ':' :: intToChars p.campaignLeadId ++
  ',' :: serializeStrChars "campaignStepId" ++ ':' :: intToChars p.campaignStepId ++
  (match p.originalUrl with
   | some u =>
     if u = "" then []
     else ',' :: serializeStrChars "originalUrl" ++ ':' :: serializeStrChars u
   | none => []) ++ ['\x7d'])

/-- The token: `Buffer.from(JSON.stringify(trackingData)).toString('base64')`. -/
def encodePayload (p : Payload) : String :=
  String.mk (base64EncodeList (utf8EncodeList (payloadJsonChars p)))

/-- The JSON value the handlers obtain from a token:
`JSON.parse(Buffer.from(id, 'base64').toString('utf-8'))`; `none` means
`JSON.parse` threw. -/
def decodeRaw (tok : String) : Option JValue :=
  jsonParseList (utf8DecodeLenient (base64DecodeChars tok.data))

/-- Property lookup on a parsed JSON object.  `JSON.parse` keeps the
last of duplicate keys, so later fields shadow earlier ones. -/
def jlookup : List (String × JValue) → String → Option JValue
  | [], _ => none
  | (k', v) :: rest, k =>
    match jlookup rest k with
    | some v' => some v'
    | none => if k' = k then some v else none

/-- The payload recovered from a token: the decoded object's three
integer ids plus the optional `originalUrl` string. -/
def decodePayload (tok : String) : Option Payload :=
  match decodeRaw tok with
  | some (.jobj fields) =>
    match jlookup fields "leadId", jlookup fields "campaignLeadId",
          jlookup fields "campaignStepId" with
    | some (.jnum a), some (.jnum b), some (.jnum c) =>
      match jlookup fields "originalUrl" with
      | none => some ⟨a, b, c, none⟩
      | some (.jstr u) => some ⟨a, b, c, some u⟩
      | some _ => none
    | _, _, _ => none
  | _ => none

/-- The fields `JSON.parse` recovers from an encoded payload. -/
def payloadFields (p : Payload) : List (String × JValue) :=
  [("leadId", .jnum p.leadId), ("campaignLeadId", .jnum p.campaignLeadId),
   ("campaignStepId", .jnum p.campaignStepId)] ++
  (match p.originalUrl with
   | some u => if u = "" then [] else [("originalUrl", .jstr u)]
   | none => [])

lemma char_toNat_lt (c : Char) : c.toNat < 1114112 := by
  have h := c.valid
  simp only [Char.toNat]
  rcases h with h | h
  · omega
  · omega

lemma char_toNat_not_surrogate (c : Char) :
    c.toNat < 55296 ∨ 57343 < c.toNat := by
  have h := c.valid
  simp only [Char.toNat]
  rcases h with h | h
  · left; omega
  · right; omega

lemma char_eq_of_toNat_eq {c d : Char} (h : c.toNat = d.toNat) : c = d := by
  apply Char.ext
  exact UInt32.toNat.inj h

lemma char_ne_of_toNat_ne {c d : Char} (h : c.toNat ≠ d.toNat) : c ≠ d :=
  fun he => h (he ▸ rfl)

lemma utf8EncodeChar_ne_nil (c : Char) : utf8EncodeChar c ≠ [] := by
  unfold utf8EncodeChar
  split
  · simp
  · split
    · simp
    · split <;> simp

lemma utf8EncodeChar_lt_256 (c : Char) : ∀ b ∈ utf8EncodeChar c, b < 256 := by
  have hlt := char_toNat_lt c
  unfold utf8EncodeChar
  split
  · simp; omega
  · split
    · simp; omega
    · split
      · simp; omega
      · simp; omega

lemma utf8EncodeList_lt_256 (cs : List Char) : ∀ b ∈ utf8EncodeList cs, b < 256 := by
  induction cs with
  | nil => simp [utf8EncodeList]
  | cons c cs ih =>
    simp only [utf8EncodeList, List.mem_append]
    rintro b (h | h)
    · exact utf8EncodeChar_lt_256 c b h
    · exact ih b h

lemma utf8DecodeStep_encode (c : Char) (rest : List Nat) :
    utf8DecodeStep (utf8EncodeChar c ++ rest) = (c, rest) := by
  have hlt := char_toNat_lt c
  have hsur := char_toNat_not_surrogate c
  unfold utf8EncodeChar
  by_cases h1 : c.toNat < 128
  · simp only [h1, if_true, List.cons_append, List.nil_append, utf8DecodeStep,
      if_pos h1, Char.ofNat_toNat]
  · by_cases h2 : c.toNat < 2048
    · simp only [h1, h2, if_true, if_false, List.cons_append, List.nil_append, utf8DecodeStep]
      rw [if_neg (by omega), if_neg (by omega), if_pos (by omega), if_pos (by omega)]
      have hval : (192 + c.toNat / 64 - 192) * 64 + (128 + c.toNat % 64 - 128) = c.toNat := by
        omega
      rw [hval, Char.ofNat_toNat]
    · by_cases h3 : c.toNat < 65536
      · simp only [h1, h2, h3, if_true, if_false, List.cons_append, List.nil_append,
          utf8DecodeStep]
        rw [if_neg (by omega), if_neg (by omega), if_neg (by omega), if_pos (by omega),
          if_pos (by omega)]
        have hval : (224 + c.toNat / 4096 - 224) * 4096 + (128 + c.toNat / 64 % 64 - 128) * 64 +
            (128 + c.toNat % 64 - 128) = c.toNat := by omega
        rw [hval, Char.ofNat_toNat]
      · simp only [h1, h2, h3, if_false, List.cons_append, List.nil_append, utf8DecodeStep]
        rw [if_neg (by omega), if_neg (by omega), if_neg (by omega), if_neg (by omega),
          if_pos (by omega), if_pos (by omega)]
        have hval : (240 + c.toNat / 262144 - 240) * 262144 +
            (128 + c.toNat / 4096 % 64 - 128) * 4096 +
            (128 + c.toNat / 64 % 64 - 128) * 64 + (128 + c.toNat % 64 - 128) = c.toNat := by
          omega
        rw [hval, Char.ofNat_toNat]

lemma utf8EncodeList_length_ge (cs : List Char) :
    cs.length ≤ (utf8EncodeList cs).length := by
  induction cs with
  | nil => simp [utf8EncodeList]
  | cons c cs ih =>
    have h := utf8EncodeChar_ne_nil c
    have : 1 ≤ (utf8EncodeChar c).length := by
      cases he : utf8EncodeChar c with
      | nil => exact absurd he h
      | cons b bs => simp
    simp only [utf8EncodeList, List.length_append, List.length_cons]
    omega

lemma utf8DecodeAux_encode (cs : List Char) :
    ∀ fuel, cs.length ≤ fuel → utf8DecodeAux fuel (utf8EncodeList cs) = cs := by
  induction cs with
  | nil => intro fuel _; cases fuel <;> simp [utf8EncodeList, utf8DecodeAux]
  | cons c cs ih =>
    intro fuel hfuel
    cases fuel with
    | zero => simp at hfuel
    | succ fuel =>
      have hne := utf8EncodeChar_ne_nil c
      cases he : utf8EncodeChar c with
      | nil => exact absurd he hne
      | cons b bs =>
        have henc : utf8EncodeList (c :: cs) = b :: (bs ++ utf8EncodeList cs) := by
          simp [utf8EncodeList, he]
        rw [henc, utf8DecodeAux]
        have hstep : utf8DecodeStep (b :: (bs ++ utf8EncodeList cs)) =
            (c, utf8EncodeList cs) := by
          have := utf8DecodeStep_encode c (utf8EncodeList cs)
          rwa [he, List.cons_append] at this
        rw [hstep]
        show c :: utf8DecodeAux fuel (utf8EncodeList cs) = c :: cs
        simp only [List.length_cons] at hfuel
        rw [ih fuel (by omega)]

lemma utf8_roundtrip (cs : List Char) :
    utf8DecodeLenient (utf8EncodeList cs) = cs := by
  unfold utf8DecodeLenient
  exact utf8DecodeAux_encode cs _ (utf8EncodeList_length_ge cs)

lemma charToSix_sixToChar_fin : ∀ n : Fin 64, charToSix (sixToChar n.val) = some n.val := by
  decide

lemma charToSix_sixToChar (n : Nat) (h : n < 64) : charToSix (sixToChar n) = some n :=
  charToSix_sixToChar_fin ⟨n, h⟩

lemma charToSix_pad : charToSix '=' = none := by decide

theorem base64_roundtrip : ∀ bs : List Nat, (∀ b ∈ bs, b < 256) →
    base64DecodeChars (base64EncodeList bs) = bs
  | [], _ => by simp [base64EncodeList, base64DecodeChars, sixGroupsToBytes]
  | [b0], h => by
      have hb0 : b0 < 256 := h b0 (by simp)
      have e0 : charToSix (sixToChar (b0 / 4)) = some (b0 / 4) :=
        charToSix_sixToChar _ (by omega)
      have e1 : charToSix (sixToChar (b0 % 4 * 16)) = some (b0 % 4 * 16) :=
        charToSix_sixToChar _ (by omega)
      simp [base64DecodeChars, base64EncodeList, List.filterMap_cons, e0, e1,
        charToSix_pad, sixGroupsToBytes]
      omega
  | [b0, b1], h => by
      have hb0 : b0 < 256 := h b0 (by simp)
      have hb1 : b1 < 256 := h b1 (by simp)
      have e0 : charToSix (sixToChar (b0 / 4)) = some (b0 / 4) :=
        charToSix_sixToChar _ (by omega)
      have e1 : charToSix (sixToChar (b0 % 4 * 16 + b1 / 16)) = some (b0 % 4 * 16 + b1 / 16) :=
        charToSix_sixToChar _ (by omega)
      have e2 : charToSix (sixToChar (b1 % 16 * 4)) = some (b1 % 16 * 4) :=
        charToSix_sixToChar _ (by omega)
      simp [base64DecodeChars, base64EncodeList, List.filterMap_cons, e0, e1, e2,
        charToSix_pad, sixGroupsToBytes]
      constructor
      · omega
      · omega
  | b0 :: b1 :: b2 :: bs, h => by
      have hb0 : b0 < 256 := h b0 (by simp)
      have hb1 : b1 < 256 := h b1 (by simp)
      have hb2 : b2 < 256 := h b2 (by simp)
      have ih := base64_roundtrip bs (fun b hb => h b (by simp [hb]))
      have e0 : charToSix (sixToChar (b0 / 4)) = some (b0 / 4) :=
        charToSix_sixToChar _ (by omega)
      have e1 : charToSix (sixToChar (b0 % 4 * 16 + b1 / 16)) = some (b0 % 4 * 16 + b1 / 16) :=
        charToSix_sixToChar _ (by omega)
      have e2 : charToSix (sixToChar (b1 % 16 * 4 + b2 / 64)) = some (b1 % 16 * 4 + b2 / 64) :=
        charToSix_sixToChar _ (by omega)
      have e3 : charToSix (sixToChar (b2 % 64)) = some (b2 % 64) :=
        charToSix_sixToChar _ (by omega)
      simp only [base64DecodeChars, base64EncodeList, List.filterMap_cons, e0, e1, e2, e3,
        sixGroupsToBytes] at ih ⊢
      rw [ih]
      simp only [List.cons.injEq]
      exact ⟨by omega, by omega, by omega, trivial⟩

lemma hexVal_hexDigitChar_fin : ∀ d : Fin 16, hexVal (hexDigitChar d.val) = some d.val := by
  decide

lemma hexVal_hexDigitChar (d : Nat) (h : d < 16) : hexVal (hexDigitChar d) = some d :=
  hexVal_hexDigitChar_fin ⟨d, h⟩

lemma parseStrAux_escape (s : List Char) :
    ∀ (fuel : Nat) (rest : List Char), s.length < fuel →
      parseStrAux fuel (jsonEscape s ++ '"' :: rest) = some (s, rest) := by
  induction s with
  | nil =>
    intro fuel rest hfuel
    cases fuel with
    | zero => omega
    | succ f => simp [jsonEscape, parseStrAux]
  | cons c s' ih =>
    intro fuel rest hfuel
    cases fuel with
    | zero => simp at hfuel
    | succ f =>
      have hf : s'.length < f := by simp at hfuel; omega
      have ihf := ih f rest hf
      simp only [jsonEscape, List.append_assoc]
      by_cases hq : c = '"'
      · subst hq
        simp [jsonEscapeChar, parseStrAux, unescapeChar, ihf]
      · by_cases hb : c = '\\'
        · subst hb
          simp [jsonEscapeChar, parseStrAux, unescapeChar, ihf]
        · by_cases h8 : c.toNat = 8
          · have hc : c = Char.ofNat 8 := by rw [← h8, Char.ofNat_toNat]
            simp [jsonEscapeChar, hq, hb, h8, parseStrAux, unescapeChar, ihf, hc]
          · by_cases h9 : c.toNat = 9
            · have hc : c = Char.ofNat 9 := by rw [← h9, Char.ofNat_toNat]
              simp [jsonEscapeChar, hq, hb, h8, h9, parseStrAux, unescapeChar, ihf, hc]
            · by_cases h10 : c.toNat = 10
              · have hc : c = Char.ofNat 10 := by rw [← h10, Char.ofNat_toNat]
                simp [jsonEscapeChar, hq, hb, h8, h9, h10, parseStrAux, unescapeChar, ihf, hc]
              · by_cases h12 : c.toNat = 12
                · have hc : c = Char.ofNat 12 := by rw [← h12, Char.ofNat_toNat]
                  simp [jsonEscapeChar, hq, hb, h8, h9, h10, h12, parseStrAux, unescapeChar,
                    ihf, hc]
                · by_cases h13 : c.toNat = 13
                  · have hc : c = Char.ofNat 13 := by rw [← h13, Char.ofNat_toNat]
                    simp [jsonEscapeChar, hq, hb, h8, h9, h10, h12, h13, parseStrAux,
                      unescapeChar, ihf, hc]
                  · by_cases hctl : c.toNat < 32
                    · have e1 : hexVal (hexDigitChar (c.toNat / 16)) = some (c.toNat / 16) :=
                        hexVal_hexDigitChar _ (by omega)
                      have e2 : hexVal (hexDigitChar (c.toNat % 16)) = some (c.toNat % 16) :=
                        hexVal_hexDigitChar _ (by omega)
                      have hval : 0 * 4096 + 0 * 256 + c.toNat / 16 * 16 + c.toNat % 16 =
                          c.toNat := by omega
                      have e0 : hexVal '0' = some 0 := by decide
                      simp only [jsonEscapeChar, hq, hb, h8, h9, h10, h12, h13, hctl,
                        if_false, if_true, List.cons_append, List.nil_append]
                      simp [parseStrAux, e0, e1, e2, ihf, hval, Char.ofNat_toNat]
                      have hval2 : c.toNat / 16 * 16 + c.toNat % 16 = c.toNat := by omega
                      rw [hval2, Char.ofNat_toNat]
                    · have hnq : ¬(c = '"') := hq
                      have hnb : ¬(c = '\\') := hb
                      simp only [jsonEscapeChar, hq, hb, h8, h9, h10, h12, h13, hctl,
                        if_false, List.cons_append, List.nil_append]
                      simp [parseStrAux, hnq, hnb, hctl, ihf]

lemma digitChar_toNat (d : Nat) (h : d < 10) : (digitChar d).toNat = 48 + d := by
  interval_cases d <;> decide

lemma isDigitChar_digitChar (d : Nat) (h : d < 10) : isDigitChar (digitChar d) = true := by
  simp [isDigitChar, digitChar_toNat d h]
  omega

/-- The continuation after a digit run must not start with another
digit. -/
def headNotDigit : List Char → Prop
  | [] => True
  | c :: _ => isDigitChar c = false

lemma parseDigitsAux_stop (rest : List Char) (acc : Nat) (h : headNotDigit rest) :
    parseDigitsAux rest acc = (acc, rest) := by
  cases rest with
  | nil => rfl
  | cons c t =>
    simp only [headNotDigit] at h
    simp [parseDigitsAux, h]

lemma natToDigitsAux_fuel_inv (n : Nat) :
    ∀ fuel fuel', n < fuel → n < fuel' → natToDigitsAux fuel n = natToDigitsAux fuel' n := by
  induction n using Nat.strong_induction_on with
  | _ n ih =>
    intro fuel fuel' h h'
    cases fuel with
    | zero => omega
    | succ f =>
      cases fuel' with
      | zero => omega
      | succ f' =>
        by_cases h10 : n < 10
        · simp [natToDigitsAux, h10]
        · simp only [natToDigitsAux, h10, if_false]
          rw [ih (n / 10) (by omega) f f' (by omega) (by omega)]

lemma natToDigits_step (n : Nat) :
    natToDigits n =
      if n < 10 then [digitChar n] else natToDigits (n / 10) ++ [digitChar (n % 10)] := by
  by_cases h10 : n < 10
  · simp [natToDigits, natToDigitsAux, h10]
  · have h1 : natToDigits n = natToDigitsAux n (n / 10) ++ [digitChar (n % 10)] := by
      simp only [natToDigits, natToDigitsAux, h10, if_false]
    rw [if_neg h10, h1,
      natToDigitsAux_fuel_inv (n / 10) n (n / 10 + 1) (by omega) (by omega)]
    rfl

lemma parseDigitsAux_digits (n : Nat) :
    ∀ (acc : Nat) (rest : List Char),
      parseDigitsAux (natToDigits n ++ rest) acc =
        parseDigitsAux rest (acc * 10 ^ (natToDigits n).length + n) := by
  induction n using Nat.strong_induction_on with
  | _ n ih =>
    intro acc rest
    by_cases h10 : n < 10
    · rw [natToDigits_step, if_pos h10]
      simp [parseDigitsAux, isDigitChar_digitChar n h10, digitChar_toNat n h10, pow_one]
    · rw [natToDigits_step n, if_neg h10, List.append_assoc, List.singleton_append,
        ih (n / 10) (by omega) acc (digitChar (n % 10) :: rest)]
      have hd : isDigitChar (digitChar (n % 10)) = true := isDigitChar_digitChar _ (by omega)
      have htn : (digitChar (n % 10)).toNat = 48 + n % 10 := digitChar_toNat _ (by omega)
      simp only [List.cons_append, List.nil_append, parseDigitsAux, hd, if_true, htn,
        List.length_append, List.length_cons, List.length_nil]
      congr 1
      rw [pow_succ, ← mul_assoc]
      generalize acc * 10 ^ (natToDigits (n / 10)).length = q
      omega

lemma natToDigits_zero : natToDigits 0 = ['0'] := by decide

lemma natToDigits_head (n : Nat) : 1 ≤ n →
    ∃ c t, natToDigits n = c :: t ∧ isDigitChar c = true ∧ c ≠ '0' := by
  induction n using Nat.strong_induction_on with
  | _ n ih =>
    intro h
    by_cases h10 : n < 10
    · refine ⟨digitChar n, [], by rw [natToDigits_step, if_pos h10],
        isDigitChar_digitChar n h10, ?_⟩
      apply char_ne_of_toNat_ne
      rw [digitChar_toNat n h10]
      have h0 : ('0').toNat = 48 := by decide
      omega
    · obtain ⟨c, t, he, hd, hz⟩ := ih (n / 10) (by omega) (by omega)
      exact ⟨c, t ++ [digitChar (n % 10)],
        by rw [natToDigits_step, if_neg h10, he]; simp, hd, hz⟩

lemma natToDigits_head_digit (n : Nat) :
    ∃ c t, natToDigits n = c :: t ∧ isDigitChar c = true := by
  by_cases h0 : n = 0
  · subst h0
    exact ⟨'0', [], natToDigits_zero, by decide⟩
  · obtain ⟨c, t, he, hd, _⟩ := natToDigits_head n (by omega)
    exact ⟨c, t, he, hd⟩

lemma parseIntPart_digits (n : Nat) (rest : List Char) (h : headNotDigit rest) :
    parseIntPart (natToDigits n ++ rest) = some (n, rest) := by
  by_cases h0 : n = 0
  · subst h0
    rw [natToDigits_zero]
    simp [parseIntPart]
  · obtain ⟨c, t, he, hd, hz⟩ := natToDigits_head n (by omega)
    have hfull := parseDigitsAux_digits n 0 rest
    rw [he] at hfull
    simp only [List.cons_append, parseDigitsAux, hd, if_true, Nat.zero_mul, Nat.zero_add] at hfull
    rw [parseDigitsAux_stop rest _ h] at hfull
    simp only [List.append_eq] at hfull
    rw [he, List.cons_append]
    simp [parseIntPart, hz, hd, hfull]

/-- What may legally follow a serialized integer so that the number
parse stops exactly there. -/
def numberFollow : List Char → Prop
  | [] => True
  | c :: _ => isDigitChar c = false ∧ c ≠ '.' ∧ c ≠ 'e' ∧ c ≠ 'E'

lemma numberFollow_headNotDigit {rest : List Char} (h : numberFollow rest) :
    headNotDigit rest := by
  cases rest with
  | nil => trivial
  | cons c t =>
    simp only [numberFollow] at h
    simp only [headNotDigit]
    exact h.1

lemma parseNumberTail_follow (neg : Bool) (n : Nat) (rest : List Char) (h : numberFollow rest) :
    parseNumberTail neg n rest = some (.jnum (if neg then -(n : Int) else (n : Int)), rest) := by
  cases rest with
  | nil => rfl
  | cons c t =>
    simp only [numberFollow] at h
    obtain ⟨hd, hdot, he, hE⟩ := h
    simp [parseNumberTail, hdot, he, hE]

lemma parseNumber_int (i : Int) (rest : List Char) (h : numberFollow rest) :
    parseNumber (intToChars i ++ rest) = some (.jnum i, rest) := by
  by_cases hneg : i < 0
  · rw [intToChars, if_pos hneg, List.cons_append]
    have hip := parseIntPart_digits i.natAbs rest (numberFollow_headNotDigit h)
    simp [parseNumber, hip, parseNumberTail_follow true i.natAbs rest h]
    simp [abs_of_neg hneg]
  · obtain ⟨c, t, he2, hd⟩ := natToDigits_head_digit i.natAbs
    have hcm : c ≠ '-' := by
      apply char_ne_of_toNat_ne
      simp only [isDigitChar, decide_eq_true_eq] at hd
      have h45 : ('-').toNat = 45 := by decide
      omega
    have hip := parseIntPart_digits i.natAbs rest (numberFollow_headNotDigit h)
    rw [he2, List.cons_append] at hip
    rw [intToChars, if_neg hneg, he2, List.cons_append]
    simp [parseNumber, hcm, hip, parseNumberTail_follow false i.natAbs rest h]
    omega

lemma skipWs_cons {c : Char} (t : List Char) (h : isWsChar c = false) :
    skipWs (c :: t) = c :: t := by
  simp [skipWs, h]

lemma jsonEscapeChar_length_pos (c : Char) : 1 ≤ (jsonEscapeChar c).length := by
  unfold jsonEscapeChar
  split
  · simp
  · split
    · simp
    · split
      · simp
      · split
        · simp
        · split
          · simp
          · split
            · simp
            · split
              · simp
              · split <;> simp

lemma jsonEscape_length_ge (s : List Char) : s.length ≤ (jsonEscape s).length := by
  induction s with
  | nil => simp [jsonEscape]
  | cons c cs ih =>
    have := jsonEscapeChar_length_pos c
    simp only [jsonEscape, List.length_append, List.length_cons]
    omega

lemma parseV_dispatch_number (fuel : Nat) (c : Char) (t : List Char)
    (hc : c = '-' ∨ isDigitChar c = true) :
    parseV (fuel + 1) (c :: t) = parseNumber (c :: t) := by
  have hrange : 45 ≤ c.toNat ∧ c.toNat ≤ 57 := by
    rcases hc with h | h
    · subst h; exact ⟨by decide, by decide⟩
    · simp [isDigitChar] at h; omega
  have hws : isWsChar c = false := by
    simp [isWsChar]; omega
  have hbrace : c ≠ '\x7b' := char_ne_of_toNat_ne (by
    have : ('\x7b').toNat = 123 := by decide
    omega)
  have hbrk : c ≠ '[' := char_ne_of_toNat_ne (by
    have : ('[').toNat = 91 := by decide
    omega)
  have hq : c ≠ '"' := char_ne_of_toNat_ne (by
    have : ('"').toNat = 34 := by decide
    omega)
  have ht : c ≠ 't' := char_ne_of_toNat_ne (by
    have : ('t').toNat = 116 := by decide
    omega)
  have hf : c ≠ 'f' := char_ne_of_toNat_ne (by
    have : ('f').toNat = 102 := by decide
    omega)
  have hn : c ≠ 'n' := char_ne_of_toNat_ne (by
    have : ('n').toNat = 110 := by decide
    omega)
  rw [parseV]
  rw [skipWs_cons t hws]
  simp [hbrace, hbrk, hq, ht, hf, hn, hc]

lemma intToChars_head (i : Int) :
    ∃ c t, intToChars i = c :: t ∧ (c = '-' ∨ isDigitChar c = true) := by
  by_cases hneg : i < 0
  · exact ⟨'-', natToDigits i.natAbs, by rw [intToChars, if_pos hneg], .inl rfl⟩
  · obtain ⟨c, t, he, hd⟩ := natToDigits_head_digit i.natAbs
    exact ⟨c, t, by rw [intToChars, if_neg hneg, he], .inr hd⟩

lemma parseV_int (fuel : Nat) (i : Int) (rest : List Char) (h : numberFollow rest) :
    parseV (fuel + 1) (intToChars i ++ rest) = some (.jnum i, rest) := by
  obtain ⟨c, t, he, hc⟩ := intToChars_head i
  rw [he, List.cons_append, parseV_dispatch_number fuel c _ hc, ← List.cons_append, ← he,
    parseNumber_int i rest h]

lemma parseV_str (fuel : Nat) (s : List Char) (rest : List Char) :
    parseV (fuel + 1) ('"' :: (jsonEscape s ++ '"' :: rest)) =
      some (.jstr (String.mk s), rest) := by
  have hws : isWsChar '"' = false := by decide
  have hlen : s.length < (jsonEscape s ++ '"' :: rest).length + 1 := by
    have := jsonEscape_length_ge s
    simp [List.length_append]
    omega
  rw [parseV, skipWs_cons _ hws]
  have hps := parseStrAux_escape s ((jsonEscape s ++ '"' :: rest).length + 1) rest hlen
  simp only [List.length_append, List.length_cons] at hps ⊢
  simp [hps]

lemma parseObjFields_cons (fuel : Nat) (kcs vcs rest' : List Char) (v : JValue)
    (fs : List (String × JValue)) (r : List Char)
    (hv : parseV fuel vcs = some (v, ',' :: rest'))
    (hrec : parseObjFields fuel rest' = some (fs, r)) :
    parseObjFields (fuel + 1) ('"' :: (jsonEscape kcs ++ '"' :: ':' :: vcs)) =
      some ((String.mk kcs, v) :: fs, r) := by
  have hws : isWsChar '"' = false := by decide
  have hlen : kcs.length < (jsonEscape kcs ++ '"' :: ':' :: vcs).length + 1 := by
    have := jsonEscape_length_ge kcs
    simp [List.length_append]
    omega
  have hps := parseStrAux_escape kcs ((jsonEscape kcs ++ '"' :: ':' :: vcs).length + 1)
    (':' :: vcs) hlen
  have h1 : skipWs (':' :: vcs) = ':' :: vcs := skipWs_cons vcs (by decide)
  have h2 : skipWs (',' :: rest') = ',' :: rest' := skipWs_cons rest' (by decide)
  rw [parseObjFields, skipWs_cons _ hws]
  simp only [List.length_append, List.length_cons] at hps ⊢
  simp [hps, h1, h2, hv, hrec]

lemma parseObjFields_last (fuel : Nat) (kcs vcs : List Char) (v : JValue) (r : List Char)
    (hv : parseV fuel vcs = some (v, '\x7d' :: r)) :
    parseObjFields (fuel + 1) ('"' :: (jsonEscape kcs ++ '"' :: ':' :: vcs)) =
      some ([(String.mk kcs, v)], r) := by
  have hws : isWsChar '"' = false := by decide
  have hlen : kcs.length < (jsonEscape kcs ++ '"' :: ':' :: vcs).length + 1 := by
    have := jsonEscape_length_ge kcs
    simp [List.length_append]
    omega
  have hps := parseStrAux_escape kcs ((jsonEscape kcs ++ '"' :: ':' :: vcs).length + 1)
    (':' :: vcs) hlen
  have h1 : skipWs (':' :: vcs) = ':' :: vcs := skipWs_cons vcs (by decide)
  have h2 : skipWs ('\x7d' :: r) = '\x7d' :: r := skipWs_cons r (by decide)
  rw [parseObjFields, skipWs_cons _ hws]
  simp only [List.length_append, List.length_cons] at hps ⊢
  simp [hps, h1, h2, hv]

lemma numberFollow_brace (r : List Char) : numberFollow ('\x7d' :: r) := by
  simp only [numberFollow]
  exact ⟨by decide, by decide, by decide, by decide⟩

lemma numberFollow_comma (r : List Char) : numberFollow (',' :: r) := by
  simp only [numberFollow]
  exact ⟨by decide, by decide, by decide, by decide⟩

lemma parseV_obj_fields (fuel : Nat) (t' : List Char) (fs : List (String × JValue))
    (r : List Char) (hrec : parseObjFields fuel ('"' :: t') = some (fs, r)) :
    parseV (fuel + 1) ('\x7b' :: '"' :: t') = some (.jobj fs, r) := by
  rw [parseV]
  have h0 : skipWs ('\x7b' :: '"' :: t') = '\x7b' :: '"' :: t' := skipWs_cons _ (by decide)
  have h1 : skipWs ('"' :: t') = '"' :: t' := skipWs_cons _ (by decide)
  rw [h0]
  simp [h1, hrec]

lemma objFields_int_last (fuel : Nat) (kcs : List Char) (i : Int) :
    parseObjFields (fuel + 2)
      ('"' :: (jsonEscape kcs ++ '"' :: ':' :: (intToChars i ++ '\x7d' :: []))) =
      some ([(String.mk kcs, .jnum i)], []) :=
  parseObjFields_last (fuel + 1) kcs _ _ _
    (parseV_int fuel i ('\x7d' :: []) (numberFollow_brace _))

lemma objFields_str_last (fuel : Nat) (kcs : List Char) (u : String) :
    parseObjFields (fuel + 2)
      ('"' :: (jsonEscape kcs ++ '"' :: ':' ::
        ('"' :: (jsonEscape u.data ++ '"' :: '\x7d' :: [])))) =
      some ([(String.mk kcs, .jstr u)], []) :=
  parseObjFields_last (fuel + 1) kcs _ _ _
    (by
      have h := parseV_str fuel u.data ('\x7d' :: [])
      exact h)

lemma objFields_int_cons (fuel : Nat) (kcs : List Char) (i : Int) {rest' : List Char}
    {fs : List (String × JValue)} {r : List Char}
    (hrec : parseObjFields (fuel + 1) rest' = some (fs, r)) :
    parseObjFields (fuel + 2)
      ('"' :: (jsonEscape kcs ++ '"' :: ':' :: (intToChars i ++ ',' :: rest'))) =
      some ((String.mk kcs, .jnum i) :: fs, r) :=
  parseObjFields_cons (fuel + 1) kcs _ _ _ _ _
    (parseV_int fuel i (',' :: rest') (numberFollow_comma _)) hrec

lemma parseV_payloadJson (F : Nat) (p : Payload) :
    parseV (F + 6) (payloadJsonChars p) = some (.jobj (payloadFields p), []) := by
  rcases hurl : p.originalUrl with _ | u
  · have h3 := objFields_int_last (F + 1) "campaignStepId".data p.campaignStepId
    have h2 := objFields_int_cons (F + 2) "campaignLeadId".data p.campaignLeadId h3
    have h1 := objFields_int_cons (F + 3) "leadId".data p.leadId h2
    have htop := parseV_obj_fields (F + 5) _ _ _ h1
    simp only [payloadJsonChars, serializeStrChars, hurl, List.append_assoc,
      List.cons_append, List.nil_append, List.singleton_append, List.append_nil,
      payloadFields]
    exact htop
  · by_cases hu : u = ""
    · subst hu
      have h3 := objFields_int_last (F + 1) "campaignStepId".data p.campaignStepId
      have h2 := objFields_int_cons (F + 2) "campaignLeadId".data p.campaignLeadId h3
      have h1 := objFields_int_cons (F + 3) "leadId".data p.leadId h2
      have htop := parseV_obj_fields (F + 5) _ _ _ h1
      simp only [payloadJsonChars, serializeStrChars, hurl, List.append_assoc,
        List.cons_append, List.nil_append, List.singleton_append, List.append_nil,
        payloadFields, if_pos rfl]
      exact htop
    · have h4 := objFields_str_last F "originalUrl".data u
      have h3 := objFields_int_cons (F + 1) "campaignStepId".data p.campaignStepId h4
      have h2 := objFields_int_cons (F + 2) "campaignLeadId".data p.campaignLeadId h3
      have h1 := objFields_int_cons (F + 3) "leadId".data p.leadId h2
      have htop := parseV_obj_fields (F + 5) _ _ _ h1
      simp only [payloadJsonChars, serializeStrChars, hurl, List.append_assoc,
        List.cons_append, List.nil_append, List.singleton_append, List.append_nil,
        payloadFields, if_neg hu]
      exact htop

lemma jsonParseList_payload (p : Payload) :
    jsonParseList (payloadJsonChars p) = some (.jobj (payloadFields p)) := by
  have hlen : 5 ≤ (payloadJsonChars p).length := by
    simp [payloadJsonChars, serializeStrChars, List.length_append]
    omega
  obtain ⟨F, hF⟩ : ∃ F, (payloadJsonChars p).length + 1 = F + 6 :=
    ⟨(payloadJsonChars p).length - 5, by omega⟩
  unfold jsonParseList
  rw [hF, parseV_payloadJson F p]
  simp [skipWs]

lemma decodeRaw_encodePayload (p : Payload) :
    decodeRaw (encodePayload p) = some (.jobj (payloadFields p)) := by
  unfold decodeRaw encodePayload
  show jsonParseList (utf8DecodeLenient (base64DecodeChars
    (base64EncodeList (utf8EncodeList (payloadJsonChars p))).asString.data)) = _
  show jsonParseList (utf8DecodeLenient (base64DecodeChars
    (base64EncodeList (utf8EncodeList (payloadJsonChars p))))) = _
  rw [base64_roundtrip _ (utf8EncodeList_lt_256 _), utf8_roundtrip, jsonParseList_payload]

lemma decodePayload_encodePayload (p : Payload) (h : p.originalUrl ≠ some "") :
    decodePayload (encodePayload p) = some p := by
  obtain ⟨a, b, c, o⟩ := p
  unfold decodePayload
  rw [decodeRaw_encodePayload]
  rcases o with _ | u
  · simp [payloadFields, jlookup]
  · have hu : u ≠ "" := by simpa using h
    simp [payloadFields, jlookup, hu]

/-- **C2, counterexample.**  The round-trip law fails for the valid
payload `⟨1, 2, 3, some ""⟩`: the encoder's truthiness guard
(`if (originalUrl) trackingData.originalUrl = originalUrl`) drops an
empty `originalUrl`, so decoding the encoded token recovers
`originalUrl = none` instead of `some ""` — decode ∘ encode is not the
identity on that payload. -/
theorem C2_roundtrip_counterexample :
    decodePayload (encodePayload ⟨1, 2, 3, some ""⟩) = some ⟨1, 2, 3, none⟩ ∧
    some (⟨1, 2, 3, none⟩ : Payload) ≠ some ⟨1, 2, 3, some ""⟩ := by
  constructor
  · have he : encodePayload ⟨1, 2, 3, some ""⟩ = encodePayload ⟨1, 2, 3, none⟩ := by
      simp [encodePayload, payloadJsonChars]
    rw [he]
    exact decodePayload_encodePayload ⟨1, 2, 3, none⟩ (by simp)
  · simp

/-- **C2, amended.**  For every payload with integer ids and an optional
`originalUrl` that is not the empty string, decoding the encoded token
recovers the payload exactly.  (A present-but-empty `originalUrl` is
dropped by the encoder's truthiness check, so the law holds only away
from that case.) -/
theorem C2_amended_roundtrip (p : Payload) (h : p.originalUrl ≠ some "") :
    decodePayload (encodePayload p) = some p :=
  decodePayload_encodePayload p h

theorem C2_amended_roundtrip_witness :
    decodePayload (encodePayload ⟨5, -7, 9, some "https://x.com/a?b=1&c=d e"⟩) =
      some ⟨5, -7, 9, some "https://x.com/a?b=1&c=d e"⟩ :=
  C2_amended_roundtrip ⟨5, -7, 9, some "https://x.com/a?b=1&c=d e"⟩ (by simp)

/- ### TrackingHttpHandlers (server file, `/o.png` and `/r/:id`)

Both handlers decode the token with `JSON.parse(Buffer.from(id,
'base64').toString('utf-8'))`, destructure `{ leadId, campaignLeadId,
campaignStepId }` from the result without any validation, and run
`prisma.sendEvent.updateMany` filtering on those fields plus
`eventType: 'SENT'`.  Two Prisma/JavaScript behaviours matter here and
are modelled explicitly: destructuring `null` throws (caught by the
handler's catch block), and an `undefined` field inside a Prisma `where`
clause is dropped from the filter entirely, while a present field of a
non-integer type makes the store call reject (caught as well). -/

inductive Resp
  | png (bytes : List Nat)
  | redirect (url : String)
  | badRequest (msg : String)
deriving Repr

/-- The base64 constant of the fixed 1×1 transparent PNG served by
`/o.png`. -/
def pixelBase64 : String :=
  "iVBORw0KGgoAAAANSUhEUgAAAAEAAAABCAYAAAAfFcSJAAAADUlEQVR42mP8/5+hHgAHggJ/PchI7wAAAABJRU5ErkJggg=="

def pixelBytes : List Nat := base64DecodeChars pixelBase64.data

/-- The destructured tracking fields: `none` means the property was
absent (`undefined`). -/
structure TrackMatcher where
  leadId : Option Int
  campaignLeadId : Option Int
  campaignStepId : Option Int
deriving DecidableEq, Repr

/-- JavaScript destructuring of the decoded value: `null` throws a
TypeError; an object yields its fields; any other value yields no own
properties (so every field comes out `undefined`). -/
def destructureFields : JValue → Except Unit (List (String × JValue))
  | .jnull => .error ()
  | .jobj fields => .ok fields
  | _ => .ok []

/-- One field of the Prisma `where` clause: an absent (`undefined`) field
is dropped; an integer value filters on it; any other present value
makes the store call reject with a validation error. -/
def fieldCond : Option JValue → Except Unit (Option Int)
  | none => .ok none
  | some (.jnum n) => .ok (some n)
  | some _ => .error ()

def buildMatcher (v : JValue) : Except Unit TrackMatcher :=
  match destructureFields v with
  | .error _ => .error ()
  | .ok fields =>
    match fieldCond (jlookup fields "leadId"),
          fieldCond (jlookup fields "campaignLeadId"),
          fieldCond (jlookup fields "campaignStepId") with
    | .ok a, .ok b, .ok c => .ok ⟨a, b, c⟩
    | _, _, _ => .error ()

def condMatches (cond : Option Int) (x : Int) : Bool :=
  match cond with
  | none => true
  | some n => n = x

/-- The `updateMany` `where` clause of the tracking handlers: the
(present) id fields plus `eventType: 'SENT'`. -/
def trackMatches (m : TrackMatcher) (r : SendRecord) : Bool :=
  condMatches m.leadId r.leadId && condMatches m.campaignLeadId r.campaignLeadId &&
    condMatches m.campaignStepId r.campaignStepId && r.eventType = EventType.SENT

/-- `GET /o.png?id=<token>`: decode inside a try/catch and record an
open event; always serve the fixed pixel afterwards.  `id` is the query
parameter (`if (id)` treats a missing or empty value as falsy);
`storeFailure` is the outcome of the `updateMany` call when it runs. -/
def oPng (id : Option String) (now : Nat) (storeFailure : Option String)
    (store : List SendRecord) : List SendRecord × Resp :=
  let store' :=
    match id with
    | none => store
    | some tok =>
      if tok = "" then store
      else
        match decodeRaw tok with
        | none => store
        | some v =>
          match buildMatcher v with
          | .error _ => store
          | .ok m =>
            match storeFailure with
            | some _ => store
            | none =>
              store.map fun r =>
                if trackMatches m r then { r with openedAt := some now } else r
  (store', .png pixelBytes)

/-- **C9.**  The tracking-pixel endpoint answers with the fixed 1×1 PNG
on every request: missing/empty/undecodeable token, matcher rejection,
or failing store call — every branch is inside the try/catch and
`res.send(pixel)` runs unconditionally afterwards. -/
theorem C9_pixel_always (id : Option String) (now : Nat) (storeFailure : Option String)
    (store : List SendRecord) : (oPng id now storeFailure store).2 = .png pixelBytes := rfl

